import Mathlib

/-! # Verification of the industry-description matcher

Shallow embedding of the industry-description-to-classification-code
matcher of MatchMeToJobs, together with proofs about the properties its
specification states.

Strings are modelled as lists of characters (`Str`); the JavaScript
string primitives used by the matcher (`toLowerCase`, `includes`,
`trim`, `split` on a regex matching runs of separator characters) are
embedded as executable functions below.  JavaScript numbers are
modelled as rationals, which represent the decimal literals of the
source (0.1, 0.3, 0.5, 0.8, 1.5, 2.0) exactly.  The stable JavaScript
`Array.prototype.sort` is modelled by the stable `List.insertionSort`.

The repository contains two matcher variants:

* variant (b), the heuristic scorer with generative refinement
  (src/unnamed/part_010, class `IndustryMatchingService`), and
* variant (a), the embedding-similarity matcher
  (src/src/services/industryMatchingService.ts).

The external generative and embedding capabilities are network calls;
they are modelled as explicit outcome parameters: `AIResponse`
enumerates the branches the response-processing code of variant (b)
distinguishes, and variant (a) receives an `Except`-valued similarity
oracle standing for the embedding computation. -/

abbrev Str := List Char

/-- JS `String.prototype.toLowerCase`, applied per character. -/
def jsToLower (s : Str) : Str := s.map Char.toLower

/-- Does `s` start with the segment `pre`. -/
def strStartsWith : Str → Str → Bool
  | _, [] => true
  | [], _ :: _ => false
  | c :: cs, d :: ds => c == d && strStartsWith cs ds

/-- JS `s.includes(sub)`: `sub` occurs contiguously inside `s`. -/
def jsIncludes : Str → Str → Bool
  | [], sub => sub.isEmpty
  | c :: cs, sub => strStartsWith (c :: cs) sub || jsIncludes cs sub

/-- One pass of JS `String.prototype.split` on a regex matching runs of
separator characters (such as `\s+` or `[,\s-]+`).  `inSep` records
whether the scanner is inside a separator run, `acc` holds the current
segment in reverse.  A leading or trailing separator run produces an
empty segment, interior runs produce none, exactly as in JavaScript. -/
def jsSplitGo (p : Char → Bool) : Bool → Str → Str → List Str
  | true, _, [] => [[]]
  | false, acc, [] => [acc.reverse]
  | true, _, c :: cs =>
    if p c then jsSplitGo p true [] cs else jsSplitGo p false [c] cs
  | false, acc, c :: cs =>
    if p c then acc.reverse :: jsSplitGo p true [] cs
    else jsSplitGo p false (c :: acc) cs

/-- JS `s.split(regex)` where `regex` matches nonempty runs of characters
satisfying `p`. -/
def jsSplitOn (p : Char → Bool) (s : Str) : List Str := jsSplitGo p false [] s

/-- JS `s.split(/\s+/)`. -/
def jsSplitWs (s : Str) : List Str := jsSplitOn Char.isWhitespace s

/-- The separator class of the regex `[,\s-]+` used by the taxonomy
loader when synthesizing keywords. -/
def punctSep (c : Char) : Bool := c == ',' || c.isWhitespace || c == '-'

/-- JS `s.split(/[,\s-]+/)`. -/
def jsSplitPunct (s : Str) : List Str := jsSplitOn punctSep s

/-- JS `String.prototype.trim`. -/
def jsTrim (s : Str) : Str :=
  ((s.dropWhile Char.isWhitespace).reverse.dropWhile Char.isWhitespace).reverse

/-- JS `Array.prototype.join(" ")`. -/
def jsJoinSpace : List Str → Str
  | [] => []
  | [s] => s
  | s :: rest => s ++ ' ' :: jsJoinSpace rest

/-- Structure `EnrichedIndustryCode` (both variant files, identical declaration):
one taxonomy entry. -/
structure EnrichedIndustryCode where
  code : Str
  name : Str
  description : Str
  keywords : List Str
deriving DecidableEq

/-- Structure `ScoredIndustry` of src/unnamed/part_010: a taxonomy entry together
with its heuristic score. -/
structure ScoredIndustry extends EnrichedIndustryCode where
  score : ℚ
deriving DecidableEq

/-- Function `areSimilar` of src/unnamed/part_010 (lines 246-254): fuzzy match of
two words.  Both words must have length at least 4; then one word must
contain the first three characters of the other. -/
def areSimilar (word1 word2 : Str) : Bool :=
  if word1.length < 4 ∨ word2.length < 4 then false
  else if 3 ≤ word1.length ∧ jsIncludes word2 (word1.take 3) = true then true
  else if 3 ≤ word2.length ∧ jsIncludes word1 (word2.take 3) = true then true
  else false

/-- The concatenated searchable text of an entry, as built inside
`calculateSimilarityScores` (part_010 lines 184-188): lower-cased name,
description and keywords joined with spaces. -/
def searchText (industry : EnrichedIndustryCode) : Str :=
  jsJoinSpace
    (jsToLower industry.name :: jsToLower industry.description ::
      industry.keywords.map jsToLower)

/-- Query tokens (part_010 lines 176-178): whitespace-split tokens of the
normalized query that are longer than 2 characters. -/
def queryWords (normalizedQuery : Str) : List Str :=
  (jsSplitWs normalizedQuery).filter (fun word => 2 < word.length)

/-- Entry-side tokens (part_010 lines 190-192): whitespace-split tokens
of the searchable text that are longer than 2 characters. -/
def searchWords (industry : EnrichedIndustryCode) : List Str :=
  (jsSplitWs (searchText industry)).filter (fun word => 2 < word.length)

/-- The per-token fuzzy-match test of the word-overlap stage (part_010
lines 200-206): containment either way, or `areSimilar`. -/
def wordMatches (qWord sWord : Str) : Bool :=
  jsIncludes sWord qWord || jsIncludes qWord sWord || areSimilar qWord sWord

/-- Term 1 of the heuristic score (part_010 lines 194-197): 1.0 when the
full normalized query occurs inside the searchable text. -/
def phraseScore (normalizedQuery : Str) (industry : EnrichedIndustryCode) : ℚ :=
  if jsIncludes (searchText industry) normalizedQuery then 1 else 0

/-- List `commonWords` (part_010 lines 200-207): the query tokens that fuzzily
match some entry-side token. -/
def commonWords (normalizedQuery : Str) (industry : EnrichedIndustryCode) :
    List Str :=
  (queryWords normalizedQuery).filter
    (fun qWord => (searchWords industry).any (fun sWord => wordMatches qWord sWord))

/-- Term 2 of the heuristic score (part_010 lines 209-211): 0.8 times the
fraction of query tokens that fuzzily match, when any does. -/
def wordOverlapScore (normalizedQuery : Str) (industry : EnrichedIndustryCode) : ℚ :=
  if 0 < (commonWords normalizedQuery industry).length then
    (((commonWords normalizedQuery industry).length : ℚ) /
        ((queryWords normalizedQuery).length : ℚ)) * (4 / 5)
  else 0

/-- List `keywordMatches` (part_010 lines 214-218): keywords contained in the
query or containing one of its tokens. -/
def keywordMatches (normalizedQuery : Str) (industry : EnrichedIndustryCode) :
    List Str :=
  industry.keywords.filter
    (fun keyword =>
      jsIncludes normalizedQuery (jsToLower keyword) ||
        (queryWords normalizedQuery).any
          (fun qWord => jsIncludes (jsToLower keyword) qWord))

/-- Term 3 of the heuristic score (part_010 lines 220-222): 0.3 per
matched keyword, when any matches. -/
def keywordScore (normalizedQuery : Str) (industry : EnrichedIndustryCode) : ℚ :=
  if 0 < (keywordMatches normalizedQuery industry).length then
    ((keywordMatches normalizedQuery industry).length : ℚ) * (3 / 10)
  else 0

/-- List `descWords` (part_010 line 225): whitespace-split tokens of the
lower-cased description, with no length filter. -/
def descWords (industry : EnrichedIndustryCode) : List Str :=
  jsSplitWs (jsToLower industry.description)

/-- List `descMatches` (part_010 lines 226-230): query tokens matching a
description token by containment either way. -/
def descMatches (normalizedQuery : Str) (industry : EnrichedIndustryCode) :
    List Str :=
  (queryWords normalizedQuery).filter
    (fun qWord =>
      (descWords industry).any
        (fun dWord => jsIncludes dWord qWord || jsIncludes qWord dWord))

/-- Term 4 of the heuristic score (part_010 lines 232-234): 0.5 times the
fraction of query tokens matching the description, when any does. -/
def descScore (normalizedQuery : Str) (industry : EnrichedIndustryCode) : ℚ :=
  if 0 < (descMatches normalizedQuery industry).length then
    (((descMatches normalizedQuery industry).length : ℚ) /
        ((queryWords normalizedQuery).length : ℚ)) * (1 / 2)
  else 0

/-- Function `calculateSimilarityScores` of src/unnamed/part_010 (lines 174-241):
every taxonomy entry scored by the sum of the four heuristic terms,
capped at 2.0. -/
def calculateSimilarityScores (enrichedCodes : List EnrichedIndustryCode)
    (query : Str) : List ScoredIndustry :=
  let normalizedQuery := jsToLower query
  enrichedCodes.map fun industry =>
    ⟨industry,
      min
        (phraseScore normalizedQuery industry +
          wordOverlapScore normalizedQuery industry +
          keywordScore normalizedQuery industry +
          descScore normalizedQuery industry)
        2⟩

/-- One entry of the generative response after schema validation
(part_010 lines 7-18). -/
structure AIMatch where
  code : Str
  name : Str
  relevance : ℚ
deriving DecidableEq

/-- The constraints the zod schema `industryMatchSchema` (part_010 lines
7-18) places on a validated response: 1 to 10 matches, each relevance
between 1 and 10. -/
def schemaOk (matchList : List AIMatch) : Prop :=
  1 ≤ matchList.length ∧ matchList.length ≤ 10 ∧
    ∀ m ∈ matchList, 1 ≤ m.relevance ∧ m.relevance ≤ 10

instance : DecidablePred schemaOk := fun _ => by
  unfold schemaOk; infer_instance

/-- Outcome of the generative call of `refineWithAI`, one constructor per
branch the response-processing code distinguishes (part_010 lines
297-339): the API call throws or returns a non-text block; the regex
finds no JSON object in the text; `JSON.parse` or the zod schema
validation throws; or validation succeeds with a list of matches. -/
inductive AIResponse where
  | apiError
  | noJsonObject
  | parseFailure
  | validated (matchList : List AIMatch)
deriving DecidableEq

/-- The error outcomes of the generative stage. -/
def aiFailed (ai : AIResponse) : Prop :=
  ai = .apiError ∨ ai = .noJsonObject ∨ ai = .parseFailure

/-- The cost-avoidance short-circuit of `refineWithAI` (part_010 line
265): at most 3 candidates, or a top heuristic score above 1.5.  The
source reads `candidates[0].score` only after `candidates.length <= 3`
has short-circuited, which `head?` models. -/
def refineShortCircuit (candidates : List ScoredIndustry) : Prop :=
  candidates.length ≤ 3 ∨
    (candidates.head?.map (fun c => decide ((3 : ℚ) / 2 < c.score))).getD false
      = true

instance : DecidablePred refineShortCircuit := fun _ => by
  unfold refineShortCircuit; infer_instance

/-- Function `refineWithAI` of src/unnamed/part_010 (lines 260-340).  The returned
Bool records whether the generative capability was invoked.  The JavaScript
stable sort on `(a, b) => b.relevance - a.relevance` is modelled by the
stable insertion sort on the same descending order. -/
def refineWithAI (candidates : List ScoredIndustry) (ai : AIResponse) :
    List Str × Bool :=
  if refineShortCircuit candidates then
    ((candidates.take 8).map (fun c => c.code), false)
  else
    match ai with
    | .apiError => ((candidates.take 8).map (fun c => c.code), true)
    | .noJsonObject => ((candidates.take 8).map (fun c => c.code), true)
    | .parseFailure => ((candidates.take 8).map (fun c => c.code), true)
    | .validated matchList =>
      let candidateCodes := candidates.map (fun c => c.code)
      let validMatches := matchList.filter
        (fun m => candidateCodes.contains m.code && decide (6 ≤ m.relevance))
      let matchedCodes :=
        (List.insertionSort (fun a b : AIMatch => b.relevance ≤ a.relevance)
            validMatches).map (fun m => m.code)
      if 0 < matchedCodes.length then (matchedCodes, true)
      else ((candidates.take 5).map (fun c => c.code), true)

/-- The candidate filter-and-rank stage of `matchIndustries` (part_010
lines 136-139): entries scoring above 0.1, sorted descending by score
(stably), truncated to 15. -/
def topCandidates (enrichedCodes : List EnrichedIndustryCode) (query : Str) :
    List ScoredIndustry :=
  (List.insertionSort (fun a b : ScoredIndustry => b.score ≤ a.score)
      ((calculateSimilarityScores enrichedCodes query).filter
        (fun candidate => decide ((1 : ℚ) / 10 < candidate.score)))).take 15

/-- Function `matchIndustries` of src/unnamed/part_010 (lines 123-168), variant
(b): heuristic scoring, filter and rank, generative refinement.  The
returned Bool records whether the generative capability was invoked.
The body of the try block of the source cannot throw (the refinement stage
catches its own failures), so the outer catch clause is unreachable. -/
def matchIndustries_b (enrichedCodes : List EnrichedIndustryCode)
    (industryDescription : Str) (ai : AIResponse) : List Str × Bool :=
  if jsTrim industryDescription = [] then ([], false)
  else if (topCandidates enrichedCodes industryDescription).length = 0 then
    ([], false)
  else refineWithAI (topCandidates enrichedCodes industryDescription) ai

/-- Structure `ScoredIndustry` of src/src/services/industryMatchingService.ts: a
taxonomy entry together with its cosine similarity to the query. -/
structure ScoredIndustryEmb extends EnrichedIndustryCode where
  similarity : ℚ
deriving DecidableEq

/-- Function `matchIndustries` of src/src/services/industryMatchingService.ts
(lines 165-230), variant (a).  The embedding stage (`embedMany` for the
taxonomy, `embed` for the query, and `cosineSimilarity`, all external
capabilities) is modelled by an `Except`-valued oracle assigning each
entry its similarity to the query; `Except.error` stands for a thrown
embedding-stage failure, which the source catches and converts to an
empty result.  The returned Bool records whether the embedding
capability was invoked. -/
def matchIndustries_a (enrichedCodes : List EnrichedIndustryCode)
    (industryDescription : Str)
    (embedOutcome : Except Unit (EnrichedIndustryCode → ℚ)) :
    List Str × Bool :=
  if jsTrim industryDescription = [] then ([], false)
  else
    match embedOutcome with
    | .error _ => ([], true)
    | .ok sim =>
      let scoredIndustries : List ScoredIndustryEmb :=
        enrichedCodes.map (fun industry => ⟨industry, sim industry⟩)
      let topMatches :=
        (List.insertionSort
            (fun a b : ScoredIndustryEmb => b.similarity ≤ a.similarity)
            (scoredIndustries.filter
              (fun industry => decide ((3 : ℚ) / 10 < industry.similarity)))).take 8
      if topMatches.length = 0 then ([], true)
      else (topMatches.map (fun m => m.code), true)

/-- A minimal taxonomy record `{code, name}` as read from
industryCodes.json. -/
structure BasicIndustryCode where
  code : Str
  name : Str
deriving DecidableEq

/-- The conversion applied to each minimal record by the fallback branch
of `loadEnrichedCodes` (both variant files, lines 96-106): description
is the name, keywords are the lower-cased tokens of the name split on
`[,\s-]+` that are longer than 2 characters. -/
def basicToEnriched (ic : BasicIndustryCode) : EnrichedIndustryCode :=
  { code := ic.code
    name := ic.name
    description := ic.name
    keywords := (jsSplitPunct (jsToLower ic.name)).filter
      (fun w => 2 < w.length) }

/-- The pure part of the `loadEnrichedCodes` fallback path: the basic
dataset mapped through `basicToEnriched`. -/
def loadEnrichedCodes_fallback (basicCodes : List BasicIndustryCode) :
    List EnrichedIndustryCode :=
  basicCodes.map basicToEnriched

/-- The string "Unknown" returned by `getIndustryName` for a missing
code. -/
def unknownName : Str := ("Unknown".toList)

/-- Function `getIndustryName` (part_010 lines 356-359 and the service file lines
235-238, identical): the name of the first entry carrying the code, with
the JavaScript `||` turning both a missing entry and an empty name into
"Unknown". -/
def getIndustryName (enrichedCodes : List EnrichedIndustryCode)
    (code : Str) : Str :=
  match enrichedCodes.find? (fun ic => ic.code == code) with
  | some industry => if industry.name.isEmpty then unknownName else industry.name
  | none => unknownName

/-- A taxonomy of ten entries whose heuristic score against the query
"aaa bbb" is 0.4 each: above the 0.1 candidate threshold and below the
1.5 short-circuit threshold, so all ten reach the refinement stage. -/
def overflowTaxonomy : List EnrichedIndustryCode :=
  (List.range 10).map
    (fun i => ⟨[Char.ofNat (48 + i)], ("aaax".toList), ("qqq".toList), []⟩)

/-- A schema-conforming generative response selecting all ten candidate
codes at relevance 6. -/
def overflowResponse : AIResponse :=
  .validated ((List.range 10).map
    (fun i => ⟨[Char.ofNat (48 + i)], ("aaax".toList), 6⟩))

/-- A schema-conforming generative response naming the same candidate
code twice. -/
def duplicateResponse : AIResponse :=
  .validated [⟨['0'], ("aaax".toList), 7⟩, ⟨['0'], ("aaax".toList), 6⟩]

/-- Six candidates with distinct codes and score 0.4 each: more than 3
of them, top score at most 1.5, so the refinement stage consults the
generative capability. -/
def sixCandidates : List ScoredIndustry :=
  (List.range 6).map
    (fun i => ⟨⟨[Char.ofNat (49 + i)], ("aaax".toList), ("qqq".toList), []⟩, 2 / 5⟩)

/-- A schema-conforming generative response whose only match carries a
code absent from the candidate list. -/
def foreignResponse : AIResponse :=
  .validated [⟨("zzzz".toList), ("zzzz".toList), 9⟩]

/-- Longest common prefix of two strings. -/
def commonPrefix : Str → Str → Str
  | c :: cs, d :: ds => if c = d then c :: commonPrefix cs ds else []
  | _, _ => []

/-- The fuzzy-match criterion as the spec words it (C5): the entry token
contains the query token, the query token contains the entry token, or
the two tokens share a common prefix of length at least 3. -/
def specFuzzyMatch (qWord sWord : Str) : Bool :=
  jsIncludes sWord qWord || jsIncludes qWord sWord ||
    decide (3 ≤ (commonPrefix qWord sWord).length)

/-- The synthesized keyword set as the spec words it (C9): the
lower-cased, punctuation-split tokens of the display name that are
longer than 2 characters. -/
def specSynthKeywords (displayName : Str) : List Str :=
  (jsSplitPunct (jsToLower displayName)).filter (fun w => 2 < w.length)

/-- A taxonomy entry with an empty display name, on which C10 fails. -/
def emptyNameEntry : EnrichedIndustryCode := ⟨("77".toList), [], [], []⟩

/-! ## Lemmas and claim theorems -/

lemma code_mem_of_mem_scores {enrichedCodes : List EnrichedIndustryCode}
    {query : Str} {si : ScoredIndustry}
    (h : si ∈ calculateSimilarityScores enrichedCodes query) :
    si.code ∈ enrichedCodes.map (fun ic => ic.code) := by
  unfold calculateSimilarityScores at h
  obtain ⟨industry, hmem, rfl⟩ := List.mem_map.mp h
  exact List.mem_map.mpr ⟨industry, hmem, rfl⟩

lemma mem_scores_of_mem_topCandidates {enrichedCodes : List EnrichedIndustryCode}
    {query : Str} {si : ScoredIndustry}
    (h : si ∈ topCandidates enrichedCodes query) :
    si ∈ calculateSimilarityScores enrichedCodes query := by
  unfold topCandidates at h
  have h2 := List.mem_of_mem_take h
  have h3 := (List.mem_insertionSort _).mp h2
  exact (List.mem_filter.mp h3).1

lemma refine_code_subset {candidates : List ScoredIndustry} {ai : AIResponse}
    {c : Str} (h : c ∈ (refineWithAI candidates ai).1) :
    c ∈ candidates.map (fun x => x.code) := by
  unfold refineWithAI at h
  split at h
  · obtain ⟨x, hx, rfl⟩ := List.mem_map.mp h
    exact List.mem_map.mpr ⟨x, List.mem_of_mem_take hx, rfl⟩
  · cases ai with
    | apiError | noJsonObject | parseFailure =>
      simp only at h
      obtain ⟨x, hx, rfl⟩ := List.mem_map.mp h
      exact List.mem_map.mpr ⟨x, List.mem_of_mem_take hx, rfl⟩
    | validated matchList =>
      simp only at h
      split at h
      · obtain ⟨m, hm, rfl⟩ := List.mem_map.mp h
        have hm2 := (List.mem_insertionSort _).mp hm
        have hm3 := (List.mem_filter.mp hm2).2
        have hc := (Bool.and_eq_true_iff.mp hm3).1
        simpa using hc
      · obtain ⟨x, hx, rfl⟩ := List.mem_map.mp h
        exact List.mem_map.mpr ⟨x, List.mem_of_mem_take hx, rfl⟩

/-- C2: for every query, every code returned by `matchIndustries` is the
code of some entry of the loaded taxonomy, in both variants and for
every outcome of the external capabilities; in variant (b) the
refinement stage only keeps codes drawn from the candidate set, which
itself is drawn from the taxonomy. -/
theorem c2_subset_invariant (enrichedCodes : List EnrichedIndustryCode)
    (query : Str) (ai : AIResponse)
    (embedOutcome : Except Unit (EnrichedIndustryCode → ℚ)) (c : Str) :
    (c ∈ (matchIndustries_b enrichedCodes query ai).1 →
      c ∈ enrichedCodes.map (fun ic => ic.code)) ∧
    (c ∈ (matchIndustries_a enrichedCodes query embedOutcome).1 →
      c ∈ enrichedCodes.map (fun ic => ic.code)) := by
  constructor
  · intro h
    unfold matchIndustries_b at h
    split at h
    · simp at h
    · split at h
      · simp at h
      · obtain ⟨x, hx, rfl⟩ := List.mem_map.mp (refine_code_subset h)
        exact code_mem_of_mem_scores (mem_scores_of_mem_topCandidates hx)
  · intro h
    unfold matchIndustries_a at h
    split at h
    · simp at h
    · cases embedOutcome with
      | error e => simp at h
      | ok sim =>
        simp only at h
        split at h
        · simp at h
        · simp only at h
          obtain ⟨x, hx, rfl⟩ := List.mem_map.mp h
          have hx2 := List.mem_of_mem_take hx
          have hx3 := (List.mem_insertionSort _).mp hx2
          have hx4 := (List.mem_filter.mp hx3).1
          obtain ⟨industry, hmem, rfl⟩ := List.mem_map.mp hx4
          exact List.mem_map.mpr ⟨industry, hmem, rfl⟩

/-- Witness for C2 on a concrete taxonomy and query. -/
theorem c2_subset_invariant_witness :
    ("1".toList) ∈
      ([⟨("1".toList), ("aaax".toList), ("qqq".toList), []⟩] :
          List EnrichedIndustryCode).map (fun ic => ic.code) :=
  (c2_subset_invariant [⟨("1".toList), ("aaax".toList), ("qqq".toList), []⟩]
      ("aaa bbb".toList) .apiError (.error ()) (("1".toList))).1
    (by with_unfolding_all decide)

/-- C3: `matchIndustries` propagates no internal-stage failure.  In
variant (b) every error outcome of the generative stage yields the
heuristic top-8 candidate codes (or the empty list when the guard or
candidate filter already produced it); in variant (a) a failing
embedding stage yields the empty list.  Both model functions are total,
mirroring the try/catch structure of the source, so no error value ever
reaches the caller. -/
theorem c3_no_throw_degradation (enrichedCodes : List EnrichedIndustryCode)
    (query : Str) (ai : AIResponse) :
    (aiFailed ai →
      (matchIndustries_b enrichedCodes query ai).1 =
          ((topCandidates enrichedCodes query).take 8).map (fun c => c.code) ∨
        (matchIndustries_b enrichedCodes query ai).1 = []) ∧
    (matchIndustries_a enrichedCodes query (.error ())).1 = [] := by
  constructor
  · intro hai
    unfold matchIndustries_b
    split
    · exact Or.inr rfl
    · split
      · exact Or.inr rfl
      · left
        unfold refineWithAI
        split
        · rfl
        · rcases hai with rfl | rfl | rfl <;> rfl
  · unfold matchIndustries_a
    split <;> rfl

/-- Witness for C3 at a concrete taxonomy, query and failing stages. -/
theorem c3_no_throw_degradation_witness :
    ((matchIndustries_b [⟨("1".toList), ("aaax".toList), ("qqq".toList), []⟩]
          ("aaa bbb".toList) .apiError).1 =
        ((topCandidates [⟨("1".toList), ("aaax".toList), ("qqq".toList), []⟩]
              ("aaa bbb".toList)).take 8).map (fun c => c.code) ∨
      (matchIndustries_b [⟨("1".toList), ("aaax".toList), ("qqq".toList), []⟩]
          ("aaa bbb".toList) .apiError).1 = []) ∧
    (matchIndustries_a [⟨("1".toList), ("aaax".toList), ("qqq".toList), []⟩]
        ("aaa bbb".toList) (.error ())).1 = [] :=
  ⟨(c3_no_throw_degradation [⟨("1".toList), ("aaax".toList), ("qqq".toList), []⟩]
        ("aaa bbb".toList) .apiError).1 (Or.inl rfl),
    (c3_no_throw_degradation [⟨("1".toList), ("aaax".toList), ("qqq".toList), []⟩]
        ("aaa bbb".toList) .apiError).2⟩

/-- C4: on an empty or whitespace-only query both variants return the
empty list, and the Bool component of the model, which records whether
the external capability (generative for variant (b), embedding for
variant (a)) was invoked, is false: the guard returns before any
scoring or capability call. -/
theorem c4_empty_query (enrichedCodes : List EnrichedIndustryCode)
    (query : Str) (ai : AIResponse)
    (embedOutcome : Except Unit (EnrichedIndustryCode → ℚ))
    (h : jsTrim query = []) :
    matchIndustries_b enrichedCodes query ai = ([], false) ∧
      matchIndustries_a enrichedCodes query embedOutcome = ([], false) := by
  constructor
  · unfold matchIndustries_b
    rw [if_pos h]
  · unfold matchIndustries_a
    rw [if_pos h]

/-- Witness for C4: the empty query and a whitespace-only query. -/
theorem c4_empty_query_witness :
    (matchIndustries_b [⟨("1".toList), ("aaax".toList), ("qqq".toList), []⟩]
          [] .apiError = ([], false) ∧
        matchIndustries_a [⟨("1".toList), ("aaax".toList), ("qqq".toList), []⟩]
          [] (.error ()) = ([], false)) ∧
      (matchIndustries_b [⟨("1".toList), ("aaax".toList), ("qqq".toList), []⟩]
          ("   ".toList) .apiError = ([], false) ∧
        matchIndustries_a [⟨("1".toList), ("aaax".toList), ("qqq".toList), []⟩]
          ("   ".toList) (.error ()) = ([], false)) :=
  ⟨c4_empty_query _ [] .apiError (.error ()) (by with_unfolding_all decide),
    c4_empty_query _ (("   ".toList)) .apiError (.error ())
      (by with_unfolding_all decide)⟩

/-- C1 fails on the code: on the validated-response path of variant (b),
`refineWithAI` returns the validated matches without truncating to 8
and without deduplicating.  With ten candidates and a schema-conforming
response selecting all ten, `matchIndustries` returns 10 codes; with a
response naming one candidate twice, it returns a list with a duplicate
code.  This contradicts the documentation of the service itself ("Returns 1-8
most relevant industry codes") and the prompt it sends ("Return up to 8
most relevant codes"). -/
theorem c1_bounded_size_violation :
    schemaOk ((List.range 10).map
        (fun i => ⟨[Char.ofNat (48 + i)], ("aaax".toList), 6⟩)) ∧
      schemaOk [⟨['0'], ("aaax".toList), 7⟩, ⟨['0'], ("aaax".toList), 6⟩] ∧
      (matchIndustries_b overflowTaxonomy ("aaa bbb".toList)
          overflowResponse).1.length = 10 ∧
      ¬ (matchIndustries_b overflowTaxonomy ("aaa bbb".toList)
          duplicateResponse).1.Nodup := by
  refine ⟨by with_unfolding_all decide, by with_unfolding_all decide,
    by with_unfolding_all decide, by with_unfolding_all decide⟩

/-- C7 as stated is false: when a validated response survives parsing
and schema validation but every match is then discarded (foreign code
or relevance below 6), `refineWithAI` falls back to the top FIVE
heuristic candidates (part_010 line 334), not to the candidate list
truncated to the configured cap of 8.  With six candidates the two
differ. -/
theorem c7_counterexample :
    schemaOk [⟨("zzzz".toList), ("zzzz".toList), 9⟩] ∧
      (refineWithAI sixCandidates foreignResponse).1 =
        (sixCandidates.take 5).map (fun c => c.code) ∧
      (refineWithAI sixCandidates foreignResponse).1 ≠
        (sixCandidates.take 8).map (fun c => c.code) := by
  refine ⟨by with_unfolding_all decide, by with_unfolding_all decide,
    by with_unfolding_all decide⟩

/-- C7 amended: on unparseable text, a missing JSON object, a parse or
schema-validation failure, or a capability error, the refinement stage
returns the pre-refinement candidate list truncated to 8; when a
matches of a validated response are all discarded (codes absent from the
candidate list or relevance below 6) it returns the candidate list
truncated to 5.  In both cases it returns the heuristic candidates in
order, never an empty result (for nonempty candidates) and never an
error. -/
theorem c7_fallback_amended (candidates : List ScoredIndustry)
    (ai : AIResponse) :
    (aiFailed ai →
      (refineWithAI candidates ai).1 =
        (candidates.take 8).map (fun c => c.code)) ∧
    (∀ matchList : List AIMatch,
      ai = .validated matchList →
      ¬ refineShortCircuit candidates →
      matchList.filter
          (fun m => (candidates.map (fun c => c.code)).contains m.code &&
            decide ((6 : ℚ) ≤ m.relevance)) = [] →
      (refineWithAI candidates ai).1 =
        (candidates.take 5).map (fun c => c.code)) := by
  constructor
  · intro hai
    unfold refineWithAI
    split
    · rfl
    · rcases hai with rfl | rfl | rfl <;> rfl
  · intro matchList hv hsc hf
    subst hv
    unfold refineWithAI
    rw [if_neg hsc]
    simp only [hf, List.insertionSort, List.map_nil, List.length_nil,
      lt_irrefl, if_false]

/-- Witness for C7 amended, exercising both fallbacks concretely. -/
theorem c7_fallback_amended_witness :
    (refineWithAI sixCandidates .noJsonObject).1 =
        (sixCandidates.take 8).map (fun c => c.code) ∧
      (refineWithAI sixCandidates foreignResponse).1 =
        (sixCandidates.take 5).map (fun c => c.code) :=
  ⟨(c7_fallback_amended sixCandidates .noJsonObject).1 (Or.inr (Or.inl rfl)),
    (c7_fallback_amended sixCandidates foreignResponse).2
      [⟨("zzzz".toList), ("zzzz".toList), 9⟩] rfl
      (by with_unfolding_all decide) (by with_unfolding_all decide)⟩

lemma phraseScore_nonneg (normalizedQuery : Str)
    (industry : EnrichedIndustryCode) : 0 ≤ phraseScore normalizedQuery industry := by
  unfold phraseScore; split <;> norm_num

lemma wordOverlapScore_nonneg (normalizedQuery : Str)
    (industry : EnrichedIndustryCode) :
    0 ≤ wordOverlapScore normalizedQuery industry := by
  unfold wordOverlapScore; split
  · positivity
  · exact le_refl 0

lemma keywordScore_nonneg (normalizedQuery : Str)
    (industry : EnrichedIndustryCode) :
    0 ≤ keywordScore normalizedQuery industry := by
  unfold keywordScore; split
  · positivity
  · exact le_refl 0

lemma descScore_nonneg (normalizedQuery : Str)
    (industry : EnrichedIndustryCode) :
    0 ≤ descScore normalizedQuery industry := by
  unfold descScore; split
  · positivity
  · exact le_refl 0

/-- C6: every score the heuristic scorer assigns is a non-negative
rational bounded by the fixed clamp 2.0, however many term contributions
accumulate. -/
theorem c6_score_bounds (enrichedCodes : List EnrichedIndustryCode)
    (query : Str) (si : ScoredIndustry)
    (h : si ∈ calculateSimilarityScores enrichedCodes query) :
    0 ≤ si.score ∧ si.score ≤ 2 := by
  unfold calculateSimilarityScores at h
  obtain ⟨industry, _, rfl⟩ := List.mem_map.mp h
  constructor
  · exact le_min
      (by
        have h1 := phraseScore_nonneg (jsToLower query) industry
        have h2 := wordOverlapScore_nonneg (jsToLower query) industry
        have h3 := keywordScore_nonneg (jsToLower query) industry
        have h4 := descScore_nonneg (jsToLower query) industry
        linarith)
      (by norm_num)
  · exact min_le_right _ _

/-- Witness for C6 at a concrete taxonomy entry and query. -/
theorem c6_score_bounds_witness :
    0 ≤ (⟨⟨("1".toList), ("aaax".toList), ("qqq".toList), []⟩, 2 / 5⟩ :
        ScoredIndustry).score ∧
      (⟨⟨("1".toList), ("aaax".toList), ("qqq".toList), []⟩, 2 / 5⟩ :
        ScoredIndustry).score ≤ 2 :=
  c6_score_bounds [⟨("1".toList), ("aaax".toList), ("qqq".toList), []⟩]
    ("aaa bbb".toList) _ (by with_unfolding_all decide)

lemma char_eq_iff_toNat (a b : Char) : a = b ↔ a.toNat = b.toNat := by
  constructor
  · rintro rfl; rfl
  · intro h; exact Char.ext (UInt32.ext_iff.mpr h)

lemma toNat_ofNat_of_valid {n : Nat} (h : n.isValidChar) :
    (Char.ofNat n).toNat = n := by
  rw [Char.ofNat, dif_pos h]
  simp [Char.ofNatAux, Char.toNat, UInt32.toNat, BitVec.toNat_ofNatLt]

lemma isWhitespace_iff_toNat (d : Char) :
    d.isWhitespace =
      (decide (d.toNat = 32) || decide (d.toNat = 9) ||
        decide (d.toNat = 13) || decide (d.toNat = 10)) := by
  have h1 : (d = ' ') ↔ (d.toNat = 32) := char_eq_iff_toNat d ' '
  have h2 : (d = '\t') ↔ (d.toNat = 9) := char_eq_iff_toNat d '\t'
  have h3 : (d = '\x0d') ↔ (d.toNat = 13) := char_eq_iff_toNat d '\x0d'
  have h4 : (d = '\n') ↔ (d.toNat = 10) := char_eq_iff_toNat d '\n'
  simp only [Char.isWhitespace, h1, h2, h3, h4]

lemma isWhitespace_toLower (c : Char) :
    (Char.toLower c).isWhitespace = c.isWhitespace := by
  show (if c.toNat ≥ 65 ∧ c.toNat ≤ 90 then Char.ofNat (c.toNat + 32)
      else c).isWhitespace = c.isWhitespace
  split
  case isTrue h =>
    have hvalid : (c.toNat + 32).isValidChar := Or.inl (by omega)
    rw [isWhitespace_iff_toNat, isWhitespace_iff_toNat,
      toNat_ofNat_of_valid hvalid]
    obtain ⟨h1, h2⟩ := h
    have e1 : decide (c.toNat + 32 = 32) = false := decide_eq_false (by omega)
    have e2 : decide (c.toNat + 32 = 9) = false := decide_eq_false (by omega)
    have e3 : decide (c.toNat + 32 = 13) = false := decide_eq_false (by omega)
    have e4 : decide (c.toNat + 32 = 10) = false := decide_eq_false (by omega)
    have f1 : decide (c.toNat = 32) = false := decide_eq_false (by omega)
    have f2 : decide (c.toNat = 9) = false := decide_eq_false (by omega)
    have f3 : decide (c.toNat = 13) = false := decide_eq_false (by omega)
    have f4 : decide (c.toNat = 10) = false := decide_eq_false (by omega)
    rw [e1, e2, e3, e4, f1, f2, f3, f4]
  case isFalse h => rfl

lemma jsSplitGo_map (p : Char → Bool) (f : Char → Char)
    (hp : ∀ c, p (f c) = p c) :
    ∀ (s : Str) (inSep : Bool) (acc : Str),
      jsSplitGo p inSep (acc.map f) (s.map f) =
        (jsSplitGo p inSep acc s).map (List.map f) := by
  intro s
  induction s with
  | nil =>
    intro inSep acc
    cases inSep <;> simp [jsSplitGo]
  | cons c cs ih =>
    intro inSep acc
    cases inSep with
    | true =>
      simp only [List.map_cons, jsSplitGo, hp c]
      rw [apply_ite (List.map (List.map f))]
      by_cases hpc : p c = true
      · rw [if_pos hpc, if_pos hpc]
        simpa using ih true []
      · rw [if_neg hpc, if_neg hpc]
        simpa using ih false [c]
    | false =>
      simp only [List.map_cons, jsSplitGo, hp c]
      rw [apply_ite (List.map (List.map f))]
      by_cases hpc : p c = true
      · rw [if_pos hpc, if_pos hpc]
        simp only [List.map_cons, List.map_reverse]
        congr 1
        simpa using ih true []
      · rw [if_neg hpc, if_neg hpc]
        simpa using ih false (c :: acc)

lemma jsSplitWs_toLower (q : Str) :
    jsSplitWs (jsToLower q) = (jsSplitWs q).map jsToLower := by
  have h := jsSplitGo_map Char.isWhitespace Char.toLower isWhitespace_toLower
    q false []
  simpa [jsSplitWs, jsSplitOn, jsToLower] using h

lemma queryWords_eq_nil_of_short (query : Str)
    (h : ∀ w ∈ jsSplitWs query, w.length ≤ 2) :
    queryWords (jsToLower query) = [] := by
  unfold queryWords
  rw [jsSplitWs_toLower]
  rw [List.filter_eq_nil_iff]
  intro w hw
  obtain ⟨w0, hw0, rfl⟩ := List.mem_map.mp hw
  have := h w0 hw0
  simp only [jsToLower, List.length_map, decide_eq_true_eq]
  omega

/-- C8: when every whitespace-split token of the query has length at
most 2, the filtered query-token list is empty, so the word-overlap and
description-overlap terms are 0 — their guards `length > 0` fail before
any division is evaluated — and the score degenerates to the
phrase and keyword terms alone.  The scorer is total on such queries. -/
theorem c8_short_query_no_overlap (enrichedCodes : List EnrichedIndustryCode)
    (query : Str) (industry : EnrichedIndustryCode)
    (h : ∀ w ∈ jsSplitWs query, w.length ≤ 2) :
    wordOverlapScore (jsToLower query) industry = 0 ∧
      descScore (jsToLower query) industry = 0 ∧
      calculateSimilarityScores enrichedCodes query =
        enrichedCodes.map (fun ind =>
          ⟨ind,
            min (phraseScore (jsToLower query) ind +
              keywordScore (jsToLower query) ind) 2⟩) := by
  have hq := queryWords_eq_nil_of_short query h
  have hw : ∀ ind : EnrichedIndustryCode,
      wordOverlapScore (jsToLower query) ind = 0 := by
    intro ind
    unfold wordOverlapScore commonWords
    rw [hq]
    simp
  have hd : ∀ ind : EnrichedIndustryCode,
      descScore (jsToLower query) ind = 0 := by
    intro ind
    unfold descScore descMatches
    rw [hq]
    simp
  refine ⟨hw industry, hd industry, ?_⟩
  unfold calculateSimilarityScores
  apply List.map_congr_left
  intro ind _
  rw [hw ind, hd ind, add_zero, add_zero]

/-- Witness for C8 on the all-short-token query "ab cd". -/
theorem c8_short_query_no_overlap_witness :
    wordOverlapScore (jsToLower ("ab cd".toList))
        ⟨("1".toList), ("aaax".toList), ("qqq".toList), []⟩ = 0 ∧
      descScore (jsToLower ("ab cd".toList))
        ⟨("1".toList), ("aaax".toList), ("qqq".toList), []⟩ = 0 ∧
      calculateSimilarityScores [⟨("1".toList), ("aaax".toList), ("qqq".toList), []⟩]
          ("ab cd".toList) =
        [⟨("1".toList), ("aaax".toList), ("qqq".toList), []⟩].map (fun ind =>
          ⟨ind,
            min (phraseScore (jsToLower ("ab cd".toList)) ind +
              keywordScore (jsToLower ("ab cd".toList)) ind) 2⟩) :=
  c8_short_query_no_overlap [⟨("1".toList), ("aaax".toList), ("qqq".toList), []⟩]
    ("ab cd".toList) ⟨("1".toList), ("aaax".toList), ("qqq".toList), []⟩
    (by with_unfolding_all decide)

lemma strStartsWith_length_le {s pre : Str}
    (h : strStartsWith s pre = true) : pre.length ≤ s.length := by
  induction s generalizing pre with
  | nil =>
    cases pre with
    | nil => simp
    | cons d ds => simp [strStartsWith] at h
  | cons c cs ih =>
    cases pre with
    | nil => simp
    | cons d ds =>
      simp only [strStartsWith, Bool.and_eq_true] at h
      simpa using ih h.2

lemma strStartsWith_eq_of_length_le {s pre : Str}
    (h : strStartsWith s pre = true) (hl : s.length ≤ pre.length) :
    s = pre := by
  induction s generalizing pre with
  | nil =>
    cases pre with
    | nil => rfl
    | cons d ds => simp [strStartsWith] at h
  | cons c cs ih =>
    cases pre with
    | nil => simp at hl
    | cons d ds =>
      simp only [strStartsWith, Bool.and_eq_true, beq_iff_eq] at h
      simp only [List.length_cons, Nat.add_le_add_iff_right] at hl
      rw [h.1, ih h.2 hl]

lemma strStartsWith_take (s : Str) (n : Nat) :
    strStartsWith s (s.take n) = true := by
  induction s generalizing n with
  | nil => cases n <;> rfl
  | cons c cs ih =>
    cases n with
    | zero => rfl
    | succ m =>
      simp only [List.take_succ_cons, strStartsWith, Bool.and_eq_true,
        beq_self_eq_true, true_and]
      exact ih m

lemma jsIncludes_of_startsWith {s sub : Str}
    (h : strStartsWith s sub = true) : jsIncludes s sub = true := by
  cases s with
  | nil =>
    cases sub with
    | nil => rfl
    | cons d ds => simp [strStartsWith] at h
  | cons c cs => simp [jsIncludes, h]

lemma jsIncludes_length_le {s sub : Str}
    (h : jsIncludes s sub = true) : sub.length ≤ s.length := by
  induction s with
  | nil =>
    cases sub with
    | nil => simp
    | cons d ds => simp [jsIncludes, List.isEmpty] at h
  | cons c cs ih =>
    simp only [jsIncludes, Bool.or_eq_true] at h
    rcases h with h | h
    · exact strStartsWith_length_le h
    · have := ih h
      simp only [List.length_cons]
      omega

lemma jsIncludes_eq_of_length_le {s sub : Str}
    (h : jsIncludes s sub = true) (hl : s.length ≤ sub.length) :
    s = sub := by
  cases s with
  | nil =>
    cases sub with
    | nil => rfl
    | cons d ds => simp [jsIncludes, List.isEmpty] at h
  | cons c cs =>
    simp only [jsIncludes, Bool.or_eq_true] at h
    rcases h with h | h
    · exact strStartsWith_eq_of_length_le h hl
    · have := jsIncludes_length_le h
      simp only [List.length_cons] at hl
      omega

lemma areSimilar_eq_true_iff (q s : Str) :
    areSimilar q s = true ↔
      4 ≤ q.length ∧ 4 ≤ s.length ∧
        (jsIncludes s (q.take 3) = true ∨ jsIncludes q (s.take 3) = true) := by
  unfold areSimilar
  by_cases h1 : q.length < 4 ∨ s.length < 4
  · rw [if_pos h1]
    simp only [Bool.false_eq_true, false_iff]
    rintro ⟨hq, hs, _⟩
    omega
  · rw [if_neg h1]
    push_neg at h1
    by_cases h2 : 3 ≤ q.length ∧ jsIncludes s (q.take 3) = true
    · rw [if_pos h2]
      simp only [true_iff]
      exact ⟨by omega, by omega, Or.inl h2.2⟩
    · rw [if_neg h2]
      by_cases h3 : 3 ≤ s.length ∧ jsIncludes q (s.take 3) = true
      · rw [if_pos h3]
        simp only [true_iff]
        exact ⟨by omega, by omega, Or.inr h3.2⟩
      · rw [if_neg h3]
        simp only [Bool.false_eq_true, false_iff]
        rintro ⟨hq4, hs4, hc | hc⟩
        · exact h2 ⟨by omega, hc⟩
        · exact h3 ⟨by omega, hc⟩

/-- C5 fails on the code: `areSimilar` does not test for a shared common
prefix; it tests whether one word contains the first three characters of
the other anywhere.  The pair ("abcd", "xabcy") fuzzily matches in the
code (the entry token contains "abc" in its interior) while the two
share no common prefix at all and neither contains the other.  Moreover
the word-overlap term is 0.8 times the matching fraction, not the
fraction itself: for the query "aaa bbb" against an entry matching only
"aaa", the term is 0.4 while the fraction is 1/2. -/
theorem c5_counterexample :
    wordMatches ("abcd".toList) ("xabcy".toList) = true ∧
      specFuzzyMatch ("abcd".toList) ("xabcy".toList) = false ∧
      wordOverlapScore (jsToLower ("aaa bbb".toList))
          ⟨("1".toList), ("aaax".toList), ("qqq".toList), []⟩ ≠
        ((commonWords (jsToLower ("aaa bbb".toList))
              ⟨("1".toList), ("aaax".toList), ("qqq".toList), []⟩).length : ℚ) /
          ((queryWords (jsToLower ("aaa bbb".toList))).length : ℚ) := by
  refine ⟨by decide, by decide, by with_unfolding_all decide⟩

/-- C5 amended: a query token (length at least 3, as the token filter of
the scorer guarantees) fuzzily matches an entry token exactly when one
contains the other, or one contains the first three characters of the
other; and the word-overlap term of the score equals 0.8 times the
fraction of query tokens that so match. -/
theorem c5_fuzzy_match_amended :
    (∀ qWord sWord : Str, 3 ≤ qWord.length → 3 ≤ sWord.length →
      (wordMatches qWord sWord = true ↔
        (jsIncludes sWord qWord = true ∨ jsIncludes qWord sWord = true ∨
          jsIncludes sWord (qWord.take 3) = true ∨
          jsIncludes qWord (sWord.take 3) = true))) ∧
    (∀ (normalizedQuery : Str) (industry : EnrichedIndustryCode),
      wordOverlapScore normalizedQuery industry =
        4 / 5 * (((commonWords normalizedQuery industry).length : ℚ) /
          ((queryWords normalizedQuery).length : ℚ))) := by
  constructor
  · intro q s hq hs
    constructor
    · intro h
      unfold wordMatches at h
      simp only [Bool.or_eq_true] at h
      rcases h with (h | h) | h
      · exact Or.inl h
      · exact Or.inr (Or.inl h)
      · obtain ⟨_, _, hc⟩ := (areSimilar_eq_true_iff q s).mp h
        rcases hc with hc | hc
        · exact Or.inr (Or.inr (Or.inl hc))
        · exact Or.inr (Or.inr (Or.inr hc))
    · intro h
      unfold wordMatches
      simp only [Bool.or_eq_true]
      rcases h with h | h | h | h
      · exact Or.inl (Or.inl h)
      · exact Or.inl (Or.inr h)
      · rcases Nat.lt_or_ge q.length 4 with hq4 | hq4
        · have ht : q.take 3 = q := List.take_of_length_le (by omega)
          rw [ht] at h
          exact Or.inl (Or.inl h)
        · rcases Nat.lt_or_ge s.length 4 with hs4 | hs4
          · have hlen : (q.take 3).length = 3 := by
              rw [List.length_take]
              omega
            have hse : s = q.take 3 := jsIncludes_eq_of_length_le h (by omega)
            have hi : jsIncludes q s = true := by
              rw [hse]
              exact jsIncludes_of_startsWith (strStartsWith_take q 3)
            exact Or.inl (Or.inr hi)
          · exact Or.inr ((areSimilar_eq_true_iff q s).mpr
              ⟨hq4, hs4, Or.inl h⟩)
      · rcases Nat.lt_or_ge s.length 4 with hs4 | hs4
        · have ht : s.take 3 = s := List.take_of_length_le (by omega)
          rw [ht] at h
          exact Or.inl (Or.inr h)
        · rcases Nat.lt_or_ge q.length 4 with hq4 | hq4
          · have hlen : (s.take 3).length = 3 := by
              rw [List.length_take]
              omega
            have hqe : q = s.take 3 := jsIncludes_eq_of_length_le h (by omega)
            have hi : jsIncludes s q = true := by
              rw [hqe]
              exact jsIncludes_of_startsWith (strStartsWith_take s 3)
            exact Or.inl (Or.inl hi)
          · exact Or.inr ((areSimilar_eq_true_iff q s).mpr
              ⟨hq4, hs4, Or.inr h⟩)
  · intro normalizedQuery industry
    unfold wordOverlapScore
    split
    case isTrue h => ring
    case isFalse h =>
      have hc : (commonWords normalizedQuery industry).length = 0 := by omega
      rw [hc]
      simp

/-- Witness for C5 amended at the concrete token pair ("abcd", "xabcy"). -/
theorem c5_fuzzy_match_amended_witness :
    wordMatches ("abcd".toList) ("xabcy".toList) = true ↔
      (jsIncludes ("xabcy".toList) ("abcd".toList) = true ∨
        jsIncludes ("abcd".toList) ("xabcy".toList) = true ∨
        jsIncludes ("xabcy".toList) (("abcd".toList).take 3) = true ∨
        jsIncludes ("abcd".toList) (("xabcy".toList).take 3) = true) :=
  c5_fuzzy_match_amended.1 ("abcd".toList) ("xabcy".toList) (by decide) (by decide)

/-- C9: on the minimal dataset the loader synthesizes, for every entry,
a description equal to the display name and exactly the keyword set the
spec describes; every synthesized keyword is longer than 2 characters.
The conversion is a pure function of the dataset (the same input always
yields this same value and nothing else is touched). -/
theorem c9_loader_fallback (basicCodes : List BasicIndustryCode) :
    loadEnrichedCodes_fallback basicCodes =
      basicCodes.map (fun ic =>
        { code := ic.code, name := ic.name, description := ic.name,
          keywords := specSynthKeywords ic.name }) ∧
    ∀ ic : BasicIndustryCode,
      ((basicToEnriched ic).keywords.all (fun k => decide (2 < k.length)))
        = true := by
  constructor
  · rfl
  · intro ic
    apply List.all_eq_true.mpr
    intro k hk
    exact (List.mem_filter.mp hk).2

/-- C10 fails on the code: for a code that IS present, `getIndustryName`
returns the name of the first matching entry only when that name is
nonempty.  The JavaScript `industry?.name || "Unknown"` treats the empty string as
falsy, so an entry with an empty name yields "Unknown", not its name. -/
theorem c10_counterexample :
    List.find? (fun ic => ic.code == ("77".toList)) [emptyNameEntry] =
        some emptyNameEntry ∧
      emptyNameEntry.name = [] ∧
      getIndustryName [emptyNameEntry] ("77".toList) ≠ emptyNameEntry.name := by
  refine ⟨by decide, rfl, by decide⟩

/-- C10 amended: `getIndustryName` never throws; it returns "Unknown"
when no entry carries the code, the name of the first entry carrying the
code when that name is nonempty, and "Unknown" when that name is empty
(the `||` falsy fallback). -/
theorem c10_get_industry_name_amended
    (enrichedCodes : List EnrichedIndustryCode) (code : Str) :
    ((∀ ic ∈ enrichedCodes, ic.code ≠ code) →
      getIndustryName enrichedCodes code = unknownName) ∧
    (∀ ic, enrichedCodes.find? (fun e => e.code == code) = some ic →
      ic.name ≠ [] → getIndustryName enrichedCodes code = ic.name) ∧
    (∀ ic, enrichedCodes.find? (fun e => e.code == code) = some ic →
      ic.name = [] → getIndustryName enrichedCodes code = unknownName) := by
  refine ⟨?_, ?_, ?_⟩
  · intro h
    unfold getIndustryName
    have hnone : enrichedCodes.find? (fun e => e.code == code) = none := by
      apply List.find?_eq_none.mpr
      intro x hx
      simpa using h x hx
    rw [hnone]
  · intro ic hfind hname
    unfold getIndustryName
    rw [hfind]
    have : ic.name.isEmpty = false := by
      cases hn : ic.name with
      | nil => exact absurd hn hname
      | cons a l => rfl
    simp [this]
  · intro ic hfind hname
    unfold getIndustryName
    rw [hfind]
    simp [hname]

/-- Witness for C10 amended: a missing code and a present code with a
nonempty name. -/
theorem c10_get_industry_name_amended_witness :
    getIndustryName [⟨("1".toList), ("aaax".toList), ("qqq".toList), []⟩]
        ("77".toList) = unknownName ∧
      getIndustryName [⟨("1".toList), ("aaax".toList), ("qqq".toList), []⟩]
        ("1".toList) = ("aaax".toList) :=
  ⟨(c10_get_industry_name_amended
        [⟨("1".toList), ("aaax".toList), ("qqq".toList), []⟩] ("77".toList)).1
      (by decide),
    (c10_get_industry_name_amended
        [⟨("1".toList), ("aaax".toList), ("qqq".toList), []⟩] ("1".toList)).2.1
      ⟨("1".toList), ("aaax".toList), ("qqq".toList), []⟩ (by decide) (by decide)⟩
